import Mathlib

/-!
Verification development for the `tide` method router (`src/router.rs`).

Modelling conventions (shallow embedding of the Rust source):

* `http::Method` is modelled as a closed enumeration of the nine standard
  methods plus an `EXT` constructor for extension methods, mirroring the fact
  that `http::Method` admits arbitrary method tokens while the router's
  `HTTP_METHODS` array enumerates exactly the nine standard ones.
* `HashMap` / `HashSet` are modelled as insertion-ordered association lists
  and insertion-ordered duplicate-free lists.  Rust hash-container iteration
  order is unspecified; the model fixes a deterministic order (insertion
  order, and for the per-path supported-method set the probe order of
  `HTTP_METHODS`).  No theorem below depends on a particular order of a
  joined `Allow` string, only on the underlying method list.
* The path-matching engine (`route_recognizer::Router`, an external crate not
  part of this repository's sources) is modelled from the spec's Path Matcher
  contract: patterns are `/`-split sequences of literal, `:param` and
  `*wildcard` segments; `recognize` returns the matching pattern that is best
  under the segment-wise specificity order literal < param < wildcard,
  compared left to right with the first point of divergence deciding, and a
  trailing wildcard matches any remaining suffix.
* Endpoints (`DynEndpoint`) are boxed closures in Rust.  The model
  distinguishes caller-registered endpoints (opaque, identified by a tag)
  from the three synthetic endpoints the router itself constructs; the
  synthetic ones carry the method list their captured `Allow` header was
  built from.  `DynEndpoint.call` returns the response a synthetic endpoint
  produces, and `none` for opaque user endpoints.
* `Router::route` is recursive in Rust; the recursion is bounded because the
  nested call substitutes `GET` for `HEAD`.  The model makes the bound
  explicit with a fuel parameter fixed at 2, and proves fuel-irrelevance
  (`routeAux (n + 2) = routeAux 2`) below.
-/

namespace TideRouter

/-- HTTP method token: the nine standard methods of the source's
`HTTP_METHODS` array, plus extension methods as `http::Method` allows. -/
inductive Method where
  | GET
  | POST
  | PUT
  | DELETE
  | HEAD
  | PATCH
  | TRACE
  | CONNECT
  | OPTIONS
  | EXT (name : String)
deriving DecidableEq, Repr

/-- Rendering of a method token, as by Rust's `format!("{}", m)`. -/
def methodName : Method → String
  | .GET => "GET"
  | .POST => "POST"
  | .PUT => "PUT"
  | .DELETE => "DELETE"
  | .HEAD => "HEAD"
  | .PATCH => "PATCH"
  | .TRACE => "TRACE"
  | .CONNECT => "CONNECT"
  | .OPTIONS => "OPTIONS"
  | .EXT s => s

/-- The source's `HTTP_METHODS` array, in its declared order. -/
def HTTP_METHODS : List Method :=
  [.GET, .POST, .PUT, .DELETE, .HEAD, .PATCH, .TRACE, .CONNECT, .OPTIONS]

/-- Segment of a path pattern.  Modelled from the spec: a pattern is a
`/`-delimited sequence of literal, named-parameter (`:name`) and wildcard
(`*name`) segments. -/
inductive SegPat where
  | lit (s : String)
  | param (name : String)
  | wildcard (name : String)
deriving DecidableEq, Repr

/-- Split a raw string on `/` (structural recursion over the character
list, so that concrete instances reduce in the kernel). -/
def splitAux : List Char → List Char → List String
  | [], acc => [String.mk acc.reverse]
  | c :: cs, acc =>
    if c = '/' then String.mk acc.reverse :: splitAux cs []
    else splitAux cs (c :: acc)

/-- Split a path into its `/`-separated segments. -/
def splitPath (p : String) : List String :=
  splitAux p.toList []

/-- Classify one pattern segment: leading `:` is a named parameter, leading
`*` a wildcard, anything else a literal. -/
def parseSegment (s : String) : SegPat :=
  match s.toList with
  | ':' :: rest => .param (String.mk rest)
  | '*' :: rest => .wildcard (String.mk rest)
  | _ => .lit s

/-- Parse a path template into its segment patterns. -/
def parsePattern (path : String) : List SegPat :=
  (splitPath path).map parseSegment

/-- Join a list of strings with a separator, as Rust's `join`. -/
def joinSep (sep : String) : List String → String
  | [] => ""
  | [x] => x
  | x :: y :: xs => x ++ sep ++ joinSep sep (y :: xs)

/-- Modelled from the spec: match a pattern against the concrete path
segments, producing parameter bindings.  A literal must equal the segment, a
parameter binds any one segment, and a trailing wildcard matches any
remaining suffix (bound as one parameter). -/
def matchSegs : List SegPat → List String → Option (List (String × String))
  | [], [] => some []
  | .lit s :: ps, seg :: segs =>
    if s = seg then matchSegs ps segs else none
  | .param n :: ps, seg :: segs =>
    (matchSegs ps segs).map (fun bs => (n, seg) :: bs)
  | [.wildcard n], segs => some [(n, joinSep "/" segs)]
  | _, _ => none

/-- Specificity rank of one segment: literal is most specific, then
parameter, then wildcard. -/
def segRank : SegPat → Nat
  | .lit _ => 0
  | .param _ => 1
  | .wildcard _ => 2

/-- Specificity rank vector of a pattern. -/
def patRank (p : List SegPat) : List Nat :=
  p.map segRank

/-- Strict lexicographic order on rank vectors: smaller is more specific.
The first point of divergence decides; a pattern that ends while the other
continues is the more specific one. -/
def lexLt : List Nat → List Nat → Bool
  | _, [] => false
  | [], _ :: _ => true
  | a :: as, b :: bs => decide (a < b) || (decide (a = b) && lexLt as bs)

/-- Opaque endpoint reference.  Caller-registered endpoints are opaque tags;
the three endpoint closures the router itself constructs are explicit, each
synthetic `Allow`-carrying endpoint recording the method list its captured
header string was built from. -/
inductive DynEndpoint where
  | user (id : Nat)
  | methodNotAllowed (allow : List Method)
  | defaultOptions (allow : List Method)
  | notFound
deriving DecidableEq, Repr

/-- An HTTP response: status, headers, body. -/
structure Response where
  status : Nat
  headers : List (String × String)
  body : String
deriving DecidableEq, Repr

/-- Allow-header value: the supported methods comma-space joined. -/
def allowHeader (ms : List Method) : String :=
  joinSep ", " (ms.map methodName)

/-- Behaviour of an endpoint: the response a synthetic endpoint returns
(`none` for opaque caller endpoints).  Mirrors the closure bodies in
`add_method_not_allowed_handler`, `add_default_options_handler` and
`not_found_endpoint`. -/
def DynEndpoint.call : DynEndpoint → Option Response
  | .user _ => none
  | .methodNotAllowed allow => some ⟨405, [("Allow", allowHeader allow)], ""⟩
  | .defaultOptions allow => some ⟨204, [("Allow", allowHeader allow)], ""⟩
  | .notFound => some ⟨404, [], ""⟩

/-- One per-method matcher: the registered (pattern, endpoint) entries in
registration order. -/
abbrev MethodRouter := List (List SegPat × DynEndpoint)

/-- The result of a successful `recognize`: the matched pattern, its
endpoint and the extracted parameter bindings. -/
structure MatchRes where
  pat : List SegPat
  handler : DynEndpoint
  params : List (String × String)
deriving DecidableEq, Repr

/-- One fold step of `recognize`: keep the more specific of the current best
candidate and the next matching entry (the earlier-registered entry wins
ties). -/
def pickStep (segs : List String) (acc : Option MatchRes)
    (e : List SegPat × DynEndpoint) : Option MatchRes :=
  match matchSegs e.1 segs with
  | none => acc
  | some ps =>
    match acc with
    | none => some ⟨e.1, e.2, ps⟩
    | some b =>
      if lexLt (patRank e.1) (patRank b.pat) then some ⟨e.1, e.2, ps⟩
      else some b

/-- Modelled from the spec: `recognize` returns the best-matching registered
pattern's endpoint and bindings, or `none` when no pattern matches. -/
def recognize (entries : MethodRouter) (path : String) : Option MatchRes :=
  entries.foldl (pickStep (splitPath path)) none

/-- The routing table: one matcher per method (association list modelling
the `HashMap`), plus the set of all registered path templates (insertion
ordered, duplicate free, modelling the `HashSet`). -/
structure Router where
  method_map : List (Method × MethodRouter)
  paths : List String
deriving DecidableEq, Repr

/-- The result of routing a URL: endpoint plus parameter bindings. -/
structure Selection where
  endpoint : DynEndpoint
  params : List (String × String)
deriving DecidableEq, Repr

/-- Lookup in the method map. -/
def assocGet : List (Method × MethodRouter) → Method → Option MethodRouter
  | [], _ => none
  | (k, v) :: rest, m => if k = m then some v else assocGet rest m

/-- The `entry(method).or_insert_with(MethodRouter::new).add(path, ep)`
idiom: append an entry to the matcher for `m`, creating it if absent. -/
def methodMapAdd : List (Method × MethodRouter) → Method → List SegPat →
    DynEndpoint → List (Method × MethodRouter)
  | [], m, pat, ep => [(m, [(pat, ep)])]
  | (k, v) :: rest, m, pat, ep =>
    if k = m then (k, v ++ [(pat, ep)]) :: rest
    else (k, v) :: methodMapAdd rest m pat ep

/-- The matcher entries registered for a method (empty if none). -/
def entriesFor (r : Router) (m : Method) : MethodRouter :=
  (assocGet r.method_map m).getD []

/-- Router::new. -/
def Router.new : Router :=
  { method_map := [], paths := [] }

/-- Router::add: insert the endpoint into the matcher for `method` under
`path`, and record `path` in the global path set. -/
def Router.add (r : Router) (path : String) (method : Method)
    (ep : DynEndpoint) : Router :=
  { method_map := methodMapAdd r.method_map method (parsePattern path) ep,
    paths := if path ∈ r.paths then r.paths else r.paths ++ [path] }

/-- Router::add_method_not_allowed_handler: register a synthetic 405 handler
for `path` under `method`, capturing the supported-method list for its
`Allow` header.  Touches only the method map, not the path set. -/
def Router.add_method_not_allowed_handler (r : Router) (path : String)
    (method : Method) (supported : List Method) : Router :=
  { r with method_map :=
      (methodMapAdd r.method_map method (parsePattern path)
        (.methodNotAllowed supported)) }

/-- Router::add_default_options_handler: register a synthetic OPTIONS 204
handler for `path`, capturing the supported-method list. -/
def Router.add_default_options_handler (r : Router) (path : String)
    (supported : List Method) : Router :=
  { r with method_map :=
      (methodMapAdd r.method_map .OPTIONS (parsePattern path)
        (.defaultOptions supported)) }

/-- Router::get_http_methods_with_handlers: probe every standard method's
matcher with `path`; the result lists (in `HTTP_METHODS` probe order) those
methods whose matcher recognizes `path`. -/
def Router.get_http_methods_with_handlers (r : Router) (path : String) :
    List Method :=
  HTTP_METHODS.filter (fun m =>
    match assocGet r.method_map m with
    | some mr => (recognize mr path).isSome
    | none => false)

/-- Loop body of Router::add_default_handlers for one path: if OPTIONS is
unsupported, register the synthetic OPTIONS handler and add OPTIONS to the
working set; then register a synthetic 405 for every standard method other
than HEAD still missing from the working set. -/
def processPath (r : Router) (path : String) : Router :=
  let methods := r.get_http_methods_with_handlers path
  let r1 := if Method.OPTIONS ∈ methods then r
            else r.add_default_options_handler path methods
  let methods1 := if Method.OPTIONS ∈ methods then methods
                  else methods ++ [Method.OPTIONS]
  HTTP_METHODS.foldl
    (fun acc m =>
      if m ∉ methods1 ∧ m ≠ Method.HEAD then
        acc.add_method_not_allowed_handler path m methods1
      else acc)
    r1

/-- Router::add_default_handlers: run the enrichment pass over every
registered path. -/
def Router.add_default_handlers (r : Router) : Router :=
  r.paths.foldl processPath r

/-- The probe `method_map.get(&m).and_then(|r| r.recognize(path).ok())`. -/
def probe (r : Router) (path : String) (m : Method) : Option MatchRes :=
  (assocGet r.method_map m).bind (fun mr => recognize mr path)

/-- Router::route with an explicit recursion bound: the Rust recursion
terminates because the nested call substitutes GET for HEAD; fuel 2 makes
that bound explicit (fuel-irrelevance is proved below). -/
def routeAux : Nat → Router → String → Method → Selection
  | 0, _, _, _ => ⟨.notFound, []⟩
  | fuel + 1, r, path, m =>
    match probe r path m with
    | some mt => ⟨mt.handler, mt.params⟩
    | none =>
      if m = Method.HEAD then routeAux fuel r path .GET
      else ⟨.notFound, []⟩

/-- Router::route: probe the matcher for `m`; on failure fall back to GET
when `m` is HEAD; otherwise return the built-in not-found endpoint with
empty bindings. -/
def Router.route (r : Router) (path : String) (m : Method) : Selection :=
  routeAux 2 r path m

/-- Recursion-depth instrument of `route`: how many probe rounds the lookup
performs (1 normally, 2 on the HEAD to GET fallback). -/
def routeDepthAux : Nat → Router → String → Method → Nat
  | 0, _, _, _ => 0
  | fuel + 1, r, path, m =>
    match probe r path m with
    | some _ => 1
    | none =>
      if m = Method.HEAD then 1 + routeDepthAux fuel r path .GET
      else 1

/-- Recursion depth of `route`. -/
def routeDepth (r : Router) (path : String) (m : Method) : Nat :=
  routeDepthAux 2 r path m

/-- A sequence of `route` calls against a router.  `route` takes `&self` in
Rust (an immutable borrow), so the state threaded to the remaining calls is
the unchanged router. -/
def runRoutes : Router → List (String × Method) → Router × List Selection
  | r, [] => (r, [])
  | r, c :: rest =>
    ((runRoutes r rest).1, r.route c.1 c.2 :: (runRoutes r rest).2)

/-! ### Concrete example routers -/

/-- Example: only GET registered for `/ping`. -/
def rPing : Router := Router.new.add "/ping" .GET (.user 1)

/-- Example: GET and POST registered for `/widgets`. -/
def rWidgets2 : Router :=
  (Router.new.add "/widgets" .GET (.user 1)).add "/widgets" .POST (.user 2)

/-- Example `rWidgets2` after the finalize pass. -/
def rWidgets2F : Router := rWidgets2.add_default_handlers

/-- Example: only POST registered for `/widgets`. -/
def rPost : Router := Router.new.add "/widgets" .POST (.user 1)

/-- Example `rPost` after the finalize pass. -/
def rPostF : Router := rPost.add_default_handlers

/-- Example: GET at `/:x/b` and POST at `/a/:y`. -/
def rShadow : Router :=
  (Router.new.add "/:x/b" .GET (.user 1)).add "/a/:y" .POST (.user 2)

/-- Example `rShadow` after the finalize pass. -/
def rShadowF : Router := rShadow.add_default_handlers

/-- Example: `/a/b` then `/a/:x`, both under GET. -/
def rAB : Router :=
  (Router.new.add "/a/b" .GET (.user 1)).add "/a/:x" .GET (.user 2)

/-- Example: `/a/:x` then `/a/b`, both under GET (opposite registration
order). -/
def rBA : Router :=
  (Router.new.add "/a/:x" .GET (.user 2)).add "/a/b" .GET (.user 1)

/-- Example matcher entry list used to instantiate the matcher
specification. -/
def entriesEx : MethodRouter := [([.lit "", .lit "a", .param "x"], .user 2)]

/-- Example match result for `entriesEx` against `/a/b`. -/
def resEx : MatchRes := ⟨[.lit "", .lit "a", .param "x"], .user 2, [("x", "b")]⟩

/-! ### Association-map lemmas -/

theorem assocGet_methodMapAdd (mm : List (Method × MethodRouter)) (m : Method)
    (pat : List SegPat) (ep : DynEndpoint) (m' : Method) :
    assocGet (methodMapAdd mm m pat ep) m' =
      if m' = m then some ((assocGet mm m).getD [] ++ [(pat, ep)])
      else assocGet mm m' := by
  induction mm with
  | nil =>
    by_cases h : m' = m
    · simp [methodMapAdd, assocGet, h]
    · simp [methodMapAdd, assocGet, h, Ne.symm h]
  | cons kv rest ih =>
    obtain ⟨k, v⟩ := kv
    by_cases hk : k = m
    · subst hk
      by_cases h : m' = k
      · subst h
        simp [methodMapAdd, assocGet]
      · simp [methodMapAdd, assocGet, h, Ne.symm h]
    · by_cases h : m' = m
      · subst h
        simp [methodMapAdd, assocGet, hk, ih, Ne.symm hk]
      · by_cases hkm : k = m'
        · subst hkm
          simp [methodMapAdd, assocGet, hk, h]
        · simp [methodMapAdd, assocGet, hk, h, hkm, ih]

theorem entriesFor_add_method_not_allowed (r : Router) (p : String)
    (m : Method) (s : List Method) (m' : Method) :
    entriesFor (r.add_method_not_allowed_handler p m s) m' =
      if m' = m then
        entriesFor r m ++ [(parsePattern p, .methodNotAllowed s)]
      else entriesFor r m' := by
  unfold entriesFor Router.add_method_not_allowed_handler
  rw [assocGet_methodMapAdd]
  by_cases h : m' = m <;> simp [h]

theorem entriesFor_add_default_options (r : Router) (p : String)
    (s : List Method) (m' : Method) :
    entriesFor (r.add_default_options_handler p s) m' =
      if m' = Method.OPTIONS then
        entriesFor r .OPTIONS ++ [(parsePattern p, .defaultOptions s)]
      else entriesFor r m' := by
  unfold entriesFor Router.add_default_options_handler
  rw [assocGet_methodMapAdd]
  by_cases h : m' = Method.OPTIONS <;> simp [h]

/-! ### Characterizing the finalize pass -/

theorem fold405_entries (p : String) (s : List Method) :
    ∀ (L : List Method), L.Nodup → ∀ (r : Router) (m' : Method),
    entriesFor
        (L.foldl
          (fun acc m =>
            if m ∉ s ∧ m ≠ Method.HEAD then
              acc.add_method_not_allowed_handler p m s
            else acc)
          r) m' =
      entriesFor r m' ++
        (if m' ∈ L ∧ m' ∉ s ∧ m' ≠ Method.HEAD then
          [(parsePattern p, .methodNotAllowed s)]
        else []) := by
  intro L
  induction L with
  | nil => intro _ r m'; simp
  | cons m0 L' ih =>
    intro hnd r m'
    have hm0 : m0 ∉ L' := (List.nodup_cons.mp hnd).1
    have hnd' : L'.Nodup := (List.nodup_cons.mp hnd).2
    rw [List.foldl_cons, ih hnd']
    by_cases he : m' = m0
    · subst he
      have hnotin : m' ∉ L' := hm0
      by_cases hc : m' ∉ s ∧ m' ≠ Method.HEAD
      · simp [hc, entriesFor_add_method_not_allowed, hnotin, hc.1, hc.2]
      · simp [hc, hnotin]
    · by_cases hc : m0 ∉ s ∧ m0 ≠ Method.HEAD
      · simp [hc, entriesFor_add_method_not_allowed, he]
      · simp [hc, he]

theorem http_methods_nodup : HTTP_METHODS.Nodup := by decide

/-- Characterization of one finalize step when the path has no caller
OPTIONS handler: the OPTIONS matcher gains the 204 endpoint capturing the
probed set, and every standard method missing from the updated set (other
than HEAD) gains a 405 endpoint capturing the updated set. -/
theorem entriesFor_processPath (r : Router) (p : String) (m' : Method)
    (h : Method.OPTIONS ∉ r.get_http_methods_with_handlers p) :
    entriesFor (processPath r p) m' =
      entriesFor r m' ++
        (if m' = Method.OPTIONS then
          [(parsePattern p,
            .defaultOptions (r.get_http_methods_with_handlers p))]
        else []) ++
        (if m' ∈ HTTP_METHODS ∧
            m' ∉ r.get_http_methods_with_handlers p ++ [Method.OPTIONS] ∧
            m' ≠ Method.HEAD then
          [(parsePattern p,
            .methodNotAllowed
              (r.get_http_methods_with_handlers p ++ [Method.OPTIONS]))]
        else []) := by
  unfold processPath
  simp only [h, if_false, ite_false]
  rw [fold405_entries p _ HTTP_METHODS http_methods_nodup]
  rw [entriesFor_add_default_options]
  by_cases he : m' = Method.OPTIONS
  · subst he
    simp
  · simp [he]

/-- Characterization of one finalize step when the path already has a
caller OPTIONS handler: no 204 is synthesized and the 405 endpoints capture
the probed set itself. -/
theorem entriesFor_processPath_mem (r : Router) (p : String) (m' : Method)
    (h : Method.OPTIONS ∈ r.get_http_methods_with_handlers p) :
    entriesFor (processPath r p) m' =
      entriesFor r m' ++
        (if m' ∈ HTTP_METHODS ∧
            m' ∉ r.get_http_methods_with_handlers p ∧
            m' ≠ Method.HEAD then
          [(parsePattern p,
            .methodNotAllowed (r.get_http_methods_with_handlers p))]
        else []) := by
  unfold processPath
  simp only [h, if_true, ite_true]
  rw [fold405_entries p _ HTTP_METHODS http_methods_nodup]

theorem entriesFor_processPath_HEAD (r : Router) (p : String) :
    entriesFor (processPath r p) .HEAD = entriesFor r .HEAD := by
  by_cases h : Method.OPTIONS ∈ r.get_http_methods_with_handlers p
  · rw [entriesFor_processPath_mem r p _ h]; simp
  · rw [entriesFor_processPath r p _ h]; simp

theorem foldl_processPath_HEAD (ps : List String) :
    ∀ r : Router,
    entriesFor (ps.foldl processPath r) .HEAD = entriesFor r .HEAD := by
  induction ps with
  | nil => intro r; rfl
  | cons p ps ih =>
    intro r
    rw [List.foldl_cons, ih, entriesFor_processPath_HEAD]

/-! ### The specificity order -/

theorem lexLt_irrefl : ∀ a : List Nat, lexLt a a = false := by
  intro a
  induction a with
  | nil => rfl
  | cons x xs ih => simp [lexLt, ih]

theorem lexLt_trans : ∀ a b c : List Nat,
    lexLt a b = true → lexLt b c = true → lexLt a c = true := by
  intro a
  induction a with
  | nil =>
    intro b c hab hbc
    cases c with
    | nil => cases b <;> simp [lexLt] at hab hbc
    | cons z zs => simp [lexLt]
  | cons x xs ih =>
    intro b c hab hbc
    cases b with
    | nil => simp [lexLt] at hab
    | cons y ys =>
      cases c with
      | nil => simp [lexLt] at hbc
      | cons z zs =>
        simp [lexLt] at hab hbc ⊢
        rcases hab with hxy | ⟨hxy, hxys⟩
        · rcases hbc with hyz | ⟨hyz, _⟩
          · exact Or.inl (Nat.lt_trans hxy hyz)
          · exact Or.inl (hyz ▸ hxy)
        · rcases hbc with hyz | ⟨hyz, hyzs⟩
          · exact Or.inl (hxy ▸ hyz)
          · exact Or.inr ⟨hxy.trans hyz, ih ys zs hxys hyzs⟩

/-! ### What recognize returns -/

/-- Invariant carried through the fold of `recognize`: over the processed
entries, either no entry matched, or the accumulator is a matching processed
entry that no processed matching entry strictly beats. -/
def RecogInv (segs : List String) (l : List (List SegPat × DynEndpoint)) :
    Option MatchRes → Prop
  | none => ∀ e ∈ l, matchSegs e.1 segs = none
  | some b =>
    (b.pat, b.handler) ∈ l ∧ matchSegs b.pat segs = some b.params ∧
    ∀ e ∈ l, ∀ ps, matchSegs e.1 segs = some ps →
      lexLt (patRank e.1) (patRank b.pat) = false

theorem pickStep_inv (segs : List String)
    (l : List (List SegPat × DynEndpoint)) (acc : Option MatchRes)
    (e : List SegPat × DynEndpoint) (h : RecogInv segs l acc) :
    RecogInv segs (l ++ [e]) (pickStep segs acc e) := by
  unfold pickStep
  cases hm : matchSegs e.1 segs with
  | none =>
    cases acc with
    | none =>
      intro e' he'
      rcases List.mem_append.mp he' with h1 | h1
      · exact h e' h1
      · simp at h1; subst h1; exact hm
    | some b =>
      obtain ⟨hb1, hb2, hb3⟩ := h
      refine ⟨List.mem_append.mpr (Or.inl hb1), hb2, ?_⟩
      intro e' he' ps hps
      rcases List.mem_append.mp he' with h1 | h1
      · exact hb3 e' h1 ps hps
      · simp at h1; subst h1; rw [hm] at hps; cases hps
  | some ps =>
    cases acc with
    | none =>
      refine ⟨List.mem_append.mpr (Or.inr (by simp)), hm, ?_⟩
      intro e' he' ps' hps'
      rcases List.mem_append.mp he' with h1 | h1
      · rw [h e' h1] at hps'; cases hps'
      · simp at h1; subst h1; exact lexLt_irrefl _
    | some b =>
      obtain ⟨hb1, hb2, hb3⟩ := h
      by_cases hlt : lexLt (patRank e.1) (patRank b.pat) = true
      · simp only [hlt, if_true, ite_true]
        refine ⟨List.mem_append.mpr (Or.inr (by simp)), hm, ?_⟩
        intro e' he' ps' hps'
        rcases List.mem_append.mp he' with h1 | h1
        · cases hx : lexLt (patRank e'.1) (patRank e.1) with
          | false => rfl
          | true =>
            have := lexLt_trans _ _ _ hx hlt
            rw [hb3 e' h1 ps' hps'] at this
            cases this
        · simp at h1; subst h1; exact lexLt_irrefl _
      · have hlt' : lexLt (patRank e.1) (patRank b.pat) = false :=
          Bool.eq_false_iff.mpr hlt
        simp only [hlt', Bool.false_eq_true, if_false, ite_false]
        refine ⟨List.mem_append.mpr (Or.inl hb1), hb2, ?_⟩
        intro e' he' ps' hps'
        rcases List.mem_append.mp he' with h1 | h1
        · exact hb3 e' h1 ps' hps'
        · simp at h1; subst h1; exact hlt'

theorem foldl_pickStep_inv (segs : List String) :
    ∀ (rest l : List (List SegPat × DynEndpoint)) (acc : Option MatchRes),
    RecogInv segs l acc →
    RecogInv segs (l ++ rest) (rest.foldl (pickStep segs) acc) := by
  intro rest
  induction rest with
  | nil => intro l acc h; simpa using h
  | cons e rest' ih =>
    intro l acc h
    have h1 := pickStep_inv segs l acc e h
    have h2 := ih (l ++ [e]) (pickStep segs acc e) h1
    simpa using h2

/-- Soundness and minimality of `recognize`: a successful lookup returns a
registered entry that matches the path, and no other matching registered
entry is strictly more specific. -/
theorem recognize_spec (entries : MethodRouter) (path : String)
    (res : MatchRes) (h : recognize entries path = some res) :
    (res.pat, res.handler) ∈ entries ∧
    matchSegs res.pat (splitPath path) = some res.params ∧
    ∀ e ∈ entries, ∀ ps, matchSegs e.1 (splitPath path) = some ps →
      lexLt (patRank e.1) (patRank res.pat) = false := by
  have h0 : RecogInv (splitPath path) [] none := by
    intro e he; cases he
  have h1 := foldl_pickStep_inv (splitPath path) entries [] none h0
  rw [List.nil_append] at h1
  unfold recognize at h
  rw [h] at h1
  exact h1

/-! ### Route unfolding -/

theorem routeAux_fuel (n : Nat) (r : Router) (p : String) (m : Method) :
    routeAux (n + 2) r p m = routeAux 2 r p m := by
  show routeAux (n + 1 + 1) r p m = routeAux (1 + 1) r p m
  cases hp : probe r p m with
  | some mt => simp [routeAux, hp]
  | none =>
    by_cases hm : m = Method.HEAD
    · subst hm
      simp only [routeAux, hp, if_true, ite_true]
      cases hg : probe r p .GET with
      | some mt => simp [routeAux, hg]
      | none => simp [routeAux, hg]
    · simp [routeAux, hp, hm]

theorem routeAux_succ_notHEAD (fuel : Nat) (r : Router) (p : String)
    (m : Method) (hm : m ≠ .HEAD) :
    routeAux (fuel + 1) r p m = routeAux 1 r p m := by
  cases hp : probe r p m with
  | some mt => simp [routeAux, hp]
  | none => simp [routeAux, hp, hm]

theorem route_probe_none_notHEAD (r : Router) (p : String) (m : Method)
    (h : probe r p m = none) (hm : m ≠ .HEAD) :
    r.route p m = ⟨.notFound, []⟩ := by
  unfold Router.route
  show routeAux (1 + 1) r p m = ⟨.notFound, []⟩
  simp [routeAux, h, hm]

theorem route_probe_none_HEAD (r : Router) (p : String)
    (h : probe r p .HEAD = none) :
    r.route p .HEAD = r.route p .GET := by
  unfold Router.route
  show routeAux (1 + 1) r p .HEAD = routeAux (1 + 1) r p .GET
  rw [routeAux_succ_notHEAD 1 r p .GET (by decide)]
  simp [routeAux, h]

/-- Relation between the supported-method probe set and a single probe. -/
theorem mem_get_http_methods (r : Router) (p : String) (m : Method) :
    m ∈ r.get_http_methods_with_handlers p ↔
      (m ∈ HTTP_METHODS ∧ (probe r p m).isSome) := by
  unfold Router.get_http_methods_with_handlers
  rw [List.mem_filter]
  refine and_congr_right fun _ => ?_
  cases h : assocGet r.method_map m <;> simp [probe, h]

theorem probe_none_of_not_supported (r : Router) (p : String) (m : Method)
    (hm : m ∈ HTTP_METHODS)
    (h : m ∉ r.get_http_methods_with_handlers p) :
    probe r p m = none := by
  rw [mem_get_http_methods] at h
  cases hs : probe r p m with
  | none => rfl
  | some mt => exact absurd ⟨hm, by rw [hs]; rfl⟩ h

/-- One finalize step only appends synthetic entries, and only at methods
whose probe had failed. -/
theorem entriesFor_processPath_extend (r : Router) (p : String) (m : Method) :
    ∃ t, entriesFor (processPath r p) m = entriesFor r m ++ t ∧
      (∀ e ∈ t, ∀ id : Nat, e.2 ≠ DynEndpoint.user id) ∧
      (t ≠ [] → probe r p m = none) := by
  by_cases hO : Method.OPTIONS ∈ r.get_http_methods_with_handlers p
  · rw [entriesFor_processPath_mem r p m hO]
    by_cases hc : m ∈ HTTP_METHODS ∧
        m ∉ r.get_http_methods_with_handlers p ∧ m ≠ Method.HEAD
    · refine ⟨[(parsePattern p,
          .methodNotAllowed (r.get_http_methods_with_handlers p))],
        by rw [if_pos hc], by simp, ?_⟩
      intro _
      exact probe_none_of_not_supported r p m hc.1 hc.2.1
    · exact ⟨[], by rw [if_neg hc], by simp, by simp⟩
  · rw [entriesFor_processPath r p m hO, List.append_assoc]
    by_cases he : m = Method.OPTIONS
    · subst he
      have hc : ¬ (Method.OPTIONS ∈ HTTP_METHODS ∧
          Method.OPTIONS ∉ r.get_http_methods_with_handlers p ++
            [Method.OPTIONS] ∧ Method.OPTIONS ≠ Method.HEAD) := by
        simp
      refine ⟨[(parsePattern p,
          .defaultOptions (r.get_http_methods_with_handlers p))],
        by rw [if_pos rfl, if_neg hc, List.append_nil], by simp, ?_⟩
      intro _
      exact probe_none_of_not_supported r p _ (by decide) hO
    · by_cases hc : m ∈ HTTP_METHODS ∧
          m ∉ r.get_http_methods_with_handlers p ++ [Method.OPTIONS] ∧
          m ≠ Method.HEAD
      · refine ⟨[(parsePattern p,
            .methodNotAllowed
              (r.get_http_methods_with_handlers p ++ [Method.OPTIONS]))],
          by rw [if_neg he, if_pos hc, List.nil_append], by simp, ?_⟩
        intro _
        refine probe_none_of_not_supported r p m hc.1 ?_
        intro hmem
        exact hc.2.1 (List.mem_append.mpr (Or.inl hmem))
      · exact ⟨[], by rw [if_neg he, if_neg hc, List.nil_append], by simp,
          by simp⟩

/-- The whole finalize pass only appends synthetic entries to each matcher. -/
theorem entriesFor_foldl_processPath_extend (ps : List String) :
    ∀ (r : Router) (m : Method),
    ∃ t, entriesFor (ps.foldl processPath r) m = entriesFor r m ++ t ∧
      ∀ e ∈ t, ∀ id : Nat, e.2 ≠ DynEndpoint.user id := by
  induction ps with
  | nil => intro r m; exact ⟨[], by simp, by simp⟩
  | cons p ps ih =>
    intro r m
    obtain ⟨t1, ht1, hs1, _⟩ := entriesFor_processPath_extend r p m
    obtain ⟨t2, ht2, hs2⟩ := ih (processPath r p) m
    refine ⟨t1 ++ t2, ?_, ?_⟩
    · rw [List.foldl_cons, ht2, ht1, List.append_assoc]
    · intro e he
      rcases List.mem_append.mp he with h1 | h1
      · exact hs1 e h1
      · exact hs2 e h1

theorem routeDepthAux_succ_notHEAD (fuel : Nat) (r : Router) (p : String)
    (m : Method) (hm : m ≠ .HEAD) :
    routeDepthAux (fuel + 1) r p m = 1 := by
  cases hp : probe r p m with
  | some mt => simp [routeDepthAux, hp]
  | none => simp [routeDepthAux, hp, hm]

/-! ### The claims -/

/-- C1: for every path and method, `route` never signals an error and, when
no matcher recognizes the path (after the HEAD to GET fallback when it
applies), returns the built-in not-found endpoint — which yields status 404
with empty body — with empty parameter bindings. -/
theorem route_unmatched_yields_not_found (r : Router) (p : String)
    (m : Method) (h1 : probe r p m = none)
    (h2 : m = Method.HEAD → probe r p .GET = none) :
    r.route p m = ⟨.notFound, []⟩ ∧
    DynEndpoint.call .notFound = some ⟨404, [], ""⟩ := by
  refine ⟨?_, rfl⟩
  by_cases hm : m = Method.HEAD
  · subst hm
    rw [route_probe_none_HEAD r p h1]
    exact route_probe_none_notHEAD r p .GET (h2 rfl) (by decide)
  · exact route_probe_none_notHEAD r p m h1 hm

/-- Witness for C1 at a concrete unregistered route. -/
theorem route_unmatched_yields_not_found_witness :
    Router.new.route "/missing" .GET = ⟨.notFound, []⟩ ∧
    DynEndpoint.call .notFound = some ⟨404, [], ""⟩ :=
  route_unmatched_yields_not_found Router.new "/missing" .GET rfl
    (fun h => absurd h (by decide))

/-- C2: when the HEAD matcher does not recognize the path, routing the path
with HEAD equals routing it with GET; with only GET registered for `/ping`,
the HEAD lookup returns the GET handler with GET's bindings. -/
theorem route_head_falls_back_to_get :
    (∀ (r : Router) (p : String), probe r p .HEAD = none →
      r.route p .HEAD = r.route p .GET) ∧
    rPing.route "/ping" .HEAD = ⟨.user 1, []⟩ ∧
    rPing.route "/ping" .HEAD = rPing.route "/ping" .GET :=
  ⟨fun r p h => route_probe_none_HEAD r p h, by decide, by decide⟩

/-- Witness for C2 at the `/ping` router. -/
theorem route_head_falls_back_to_get_witness :
    rPing.route "/ping" .HEAD = rPing.route "/ping" .GET :=
  route_head_falls_back_to_get.1 rPing "/ping" (by decide)

/-- C8: `route` mutates no router state — any sequence of lookups leaves the
router unchanged, and repeating the same sequence of lookups yields
identical selections. -/
theorem route_is_read_only (r : Router) (calls : List (String × Method)) :
    (runRoutes r calls).1 = r ∧
    (runRoutes (runRoutes r calls).1 calls).2 = (runRoutes r calls).2 := by
  have h1 : ∀ cs : List (String × Method), (runRoutes r cs).1 = r := by
    intro cs
    induction cs with
    | nil => rfl
    | cons c rest ih => simpa [runRoutes] using ih
  exact ⟨h1 calls, by rw [h1 calls]⟩

/-- C9: `route` terminates on every input — the HEAD fallback performs at
most one method substitution (the nested call uses GET, which never
re-enters the HEAD branch), the probe-round depth is bounded by two, and
any recursion bound beyond two computes the same selection. -/
theorem route_depth_bounded_by_two (r : Router) (p : String) (m : Method) :
    routeDepth r p m ≤ 2 ∧ routeDepth r p .GET = 1 ∧
    ∀ n : Nat, routeAux (n + 2) r p m = r.route p m := by
  have hget : routeDepth r p .GET = 1 := by
    unfold routeDepth
    exact routeDepthAux_succ_notHEAD 1 r p .GET (by decide)
  refine ⟨?_, hget, fun n => routeAux_fuel n r p m⟩
  by_cases hm : m = Method.HEAD
  · subst hm
    unfold routeDepth
    show routeDepthAux (1 + 1) r p .HEAD ≤ 2
    cases hp : probe r p .HEAD with
    | some mt => simp [routeDepthAux, hp]
    | none =>
      cases hg : probe r p .GET with
      | some mt => simp [routeDepthAux, hp, hg]
      | none => simp [routeDepthAux, hp, hg]
  · unfold routeDepth
    show routeDepthAux (1 + 1) r p m ≤ 2
    rw [routeDepthAux_succ_notHEAD 1 r p m hm]
    omega

/-- C4: the finalize step for a path whose probed supported set lacks
OPTIONS registers a synthetic OPTIONS endpoint capturing that set, which
returns status 204 with empty body and the comma-space-joined Allow header;
`add_default_handlers` runs this step for every registered path, and on a
path registered for GET and POST the finalized OPTIONS lookup yields 204
with Allow exactly GET and POST. -/
theorem finalize_registers_options_handler :
    (∀ (r : Router) (p : String),
      Method.OPTIONS ∉ r.get_http_methods_with_handlers p →
      entriesFor (processPath r p) .OPTIONS =
        entriesFor r .OPTIONS ++
          [(parsePattern p,
            .defaultOptions (r.get_http_methods_with_handlers p))] ∧
      DynEndpoint.call
          (.defaultOptions (r.get_http_methods_with_handlers p)) =
        some ⟨204,
          [("Allow", allowHeader (r.get_http_methods_with_handlers p))],
          ""⟩) ∧
    (∀ r : Router, r.add_default_handlers = r.paths.foldl processPath r) ∧
    (rWidgets2F.route "/widgets" .OPTIONS).endpoint =
      .defaultOptions [.GET, .POST] ∧
    DynEndpoint.call (rWidgets2F.route "/widgets" .OPTIONS).endpoint =
      some ⟨204, [("Allow", "GET, POST")], ""⟩ := by
  refine ⟨?_, fun r => rfl, by decide, by decide⟩
  intro r p h
  refine ⟨?_, rfl⟩
  rw [entriesFor_processPath r p .OPTIONS h]
  simp

/-- Witness for C4 at the path registered for GET and POST. -/
theorem finalize_registers_options_handler_witness :
    entriesFor (processPath rWidgets2 "/widgets") .OPTIONS =
      entriesFor rWidgets2 .OPTIONS ++
        [(parsePattern "/widgets",
          .defaultOptions
            (rWidgets2.get_http_methods_with_handlers "/widgets"))] ∧
    DynEndpoint.call
        (.defaultOptions
          (rWidgets2.get_http_methods_with_handlers "/widgets")) =
      some ⟨204,
        [("Allow",
          allowHeader (rWidgets2.get_http_methods_with_handlers "/widgets"))],
        ""⟩ :=
  finalize_registers_options_handler.1 rWidgets2 "/widgets" (by decide)

/-- C5: in the finalize step, every standard method other than HEAD that is
absent from the updated supported set (after OPTIONS was inserted, when it
was missing) gets a synthetic endpoint returning status 405 with an Allow
header and empty body; HEAD never gets one — the HEAD matcher is untouched
by the entire pass. -/
theorem finalize_registers_405_handlers :
    (∀ (r : Router) (p : String) (m : Method),
      Method.OPTIONS ∉ r.get_http_methods_with_handlers p →
      m ∈ HTTP_METHODS →
      m ∉ r.get_http_methods_with_handlers p ++ [Method.OPTIONS] →
      m ≠ .HEAD →
      entriesFor (processPath r p) m =
        entriesFor r m ++
          [(parsePattern p,
            .methodNotAllowed
              (r.get_http_methods_with_handlers p ++ [Method.OPTIONS]))] ∧
      DynEndpoint.call
          (.methodNotAllowed
            (r.get_http_methods_with_handlers p ++ [Method.OPTIONS])) =
        some ⟨405,
          [("Allow",
            allowHeader
              (r.get_http_methods_with_handlers p ++ [Method.OPTIONS]))],
          ""⟩) ∧
    (∀ (r : Router) (p : String) (m : Method),
      Method.OPTIONS ∈ r.get_http_methods_with_handlers p →
      m ∈ HTTP_METHODS → m ∉ r.get_http_methods_with_handlers p →
      m ≠ .HEAD →
      entriesFor (processPath r p) m =
        entriesFor r m ++
          [(parsePattern p,
            .methodNotAllowed (r.get_http_methods_with_handlers p))]) ∧
    (∀ r : Router,
      entriesFor r.add_default_handlers .HEAD = entriesFor r .HEAD) := by
  refine ⟨?_, ?_, ?_⟩
  · intro r p m hO hm hns hh
    have hne : m ≠ Method.OPTIONS := by
      intro he
      subst he
      exact hns (by simp)
    refine ⟨?_, rfl⟩
    rw [entriesFor_processPath r p m hO, if_neg hne,
      if_pos ⟨hm, hns, hh⟩, List.append_nil]
  · intro r p m hO hm hns hh
    rw [entriesFor_processPath_mem r p m hO, if_pos ⟨hm, hns, hh⟩]
  · intro r
    exact foldl_processPath_HEAD r.paths r

/-- Witness for C5 at the POST-only path and the DELETE method. -/
theorem finalize_registers_405_handlers_witness :
    entriesFor (processPath rPost "/widgets") .DELETE =
      entriesFor rPost .DELETE ++
        [(parsePattern "/widgets",
          .methodNotAllowed
            (rPost.get_http_methods_with_handlers "/widgets" ++
              [Method.OPTIONS]))] ∧
    DynEndpoint.call
        (.methodNotAllowed
          (rPost.get_http_methods_with_handlers "/widgets" ++
            [Method.OPTIONS])) =
      some ⟨405,
        [("Allow",
          allowHeader
            (rPost.get_http_methods_with_handlers "/widgets" ++
              [Method.OPTIONS]))],
        ""⟩ :=
  finalize_registers_405_handlers.1 rPost "/widgets" .DELETE (by decide)
    (by decide) (by decide) (by decide)

/-- C10: for a path that lacked a caller OPTIONS handler, every synthetic
405 endpoint the finalize step creates captures the working set with
OPTIONS inserted — so its Allow header lists OPTIONS — while the synthetic
OPTIONS 204 endpoint captures the set before the insertion and its Allow
header does not list OPTIONS. -/
theorem synthetic_405_allow_lists_options :
    (∀ (r : Router) (p : String) (m : Method),
      Method.OPTIONS ∉ r.get_http_methods_with_handlers p →
      m ∈ HTTP_METHODS →
      m ∉ r.get_http_methods_with_handlers p ++ [Method.OPTIONS] →
      m ≠ .HEAD →
      entriesFor (processPath r p) m =
        entriesFor r m ++
          [(parsePattern p,
            .methodNotAllowed
              (r.get_http_methods_with_handlers p ++ [Method.OPTIONS]))] ∧
      Method.OPTIONS ∈
        r.get_http_methods_with_handlers p ++ [Method.OPTIONS] ∧
      entriesFor (processPath r p) .OPTIONS =
        entriesFor r .OPTIONS ++
          [(parsePattern p,
            .defaultOptions (r.get_http_methods_with_handlers p))] ∧
      Method.OPTIONS ∉ r.get_http_methods_with_handlers p) ∧
    (rPostF.route "/widgets" .GET).endpoint =
      .methodNotAllowed [.POST, .OPTIONS] ∧
    Method.OPTIONS ∈ ([.POST, .OPTIONS] : List Method) ∧
    (rPostF.route "/widgets" .OPTIONS).endpoint = .defaultOptions [.POST] ∧
    Method.OPTIONS ∉ ([.POST] : List Method) := by
  refine ⟨?_, by decide, by decide, by decide, by decide⟩
  intro r p m hO hm hns hh
  have hne : m ≠ Method.OPTIONS := by
    intro he
    subst he
    exact hns (by simp)
  refine ⟨?_, by simp, ?_, hO⟩
  · rw [entriesFor_processPath r p m hO, if_neg hne,
      if_pos ⟨hm, hns, hh⟩, List.append_nil]
  · rw [entriesFor_processPath r p .OPTIONS hO]
    simp

/-- Witness for C10 at the POST-only path and the GET method. -/
theorem synthetic_405_allow_lists_options_witness :
    entriesFor (processPath rPost "/widgets") .GET =
      entriesFor rPost .GET ++
        [(parsePattern "/widgets",
          .methodNotAllowed
            (rPost.get_http_methods_with_handlers "/widgets" ++
              [Method.OPTIONS]))] ∧
    Method.OPTIONS ∈
      rPost.get_http_methods_with_handlers "/widgets" ++ [Method.OPTIONS] ∧
    entriesFor (processPath rPost "/widgets") .OPTIONS =
      entriesFor rPost .OPTIONS ++
        [(parsePattern "/widgets",
          .defaultOptions
            (rPost.get_http_methods_with_handlers "/widgets"))] ∧
    Method.OPTIONS ∉ rPost.get_http_methods_with_handlers "/widgets" :=
  synthetic_405_allow_lists_options.1 rPost "/widgets" .GET (by decide)
    (by decide) (by decide) (by decide)

/-- C3 as stated fails on the code: for a path registered only for POST,
the synthetic OPTIONS 204 endpoint captures the Allow set [POST] while the
synthetic 405 endpoints capture [POST, OPTIONS] — the OPTIONS response and
the 405 responses do not list the same methods. -/
theorem allow_sets_differ_counterexample :
    (rPostF.route "/widgets" .OPTIONS).endpoint = .defaultOptions [.POST] ∧
    (rPostF.route "/widgets" .DELETE).endpoint =
      .methodNotAllowed [.POST, .OPTIONS] ∧
    Method.OPTIONS ∈ ([.POST, .OPTIONS] : List Method) ∧
    Method.OPTIONS ∉ ([.POST] : List Method) := by
  decide

/-- C3 amended: both Allow headers derive from the same probed supported
set, but the OPTIONS 204 captures it before OPTIONS is inserted while each
405 captures it after, so for a path lacking a caller OPTIONS handler the
two sets agree on every method except that the 405 sets additionally list
OPTIONS; a POST-only path yields OPTIONS 204 with Allow POST and DELETE 405
with Allow POST, OPTIONS. -/
theorem allow_sets_agree_except_options :
    (∀ (r : Router) (p : String),
      Method.OPTIONS ∉ r.get_http_methods_with_handlers p →
      entriesFor (processPath r p) .OPTIONS =
        entriesFor r .OPTIONS ++
          [(parsePattern p,
            .defaultOptions (r.get_http_methods_with_handlers p))] ∧
      (∀ m : Method, m ∈ HTTP_METHODS →
        m ∉ r.get_http_methods_with_handlers p ++ [Method.OPTIONS] →
        m ≠ .HEAD →
        entriesFor (processPath r p) m =
          entriesFor r m ++
            [(parsePattern p,
              .methodNotAllowed
                (r.get_http_methods_with_handlers p ++
                  [Method.OPTIONS]))]) ∧
      (∀ m : Method,
        m ∈ r.get_http_methods_with_handlers p ++ [Method.OPTIONS] ↔
          (m ∈ r.get_http_methods_with_handlers p ∨ m = .OPTIONS))) ∧
    (rPostF.route "/widgets" .OPTIONS).endpoint = .defaultOptions [.POST] ∧
    (rPostF.route "/widgets" .DELETE).endpoint =
      .methodNotAllowed [.POST, .OPTIONS] := by
  refine ⟨?_, by decide, by decide⟩
  intro r p hO
  refine ⟨?_, ?_, ?_⟩
  · rw [entriesFor_processPath r p .OPTIONS hO]
    simp
  · intro m hm hns hh
    have hne : m ≠ Method.OPTIONS := by
      intro he
      subst he
      exact hns (by simp)
    rw [entriesFor_processPath r p m hO, if_neg hne,
      if_pos ⟨hm, hns, hh⟩, List.append_nil]
  · intro m
    simp

/-- Witness for the amended C3 at the POST-only path. -/
theorem allow_sets_agree_except_options_witness :
    entriesFor (processPath rPost "/widgets") .OPTIONS =
      entriesFor rPost .OPTIONS ++
        [(parsePattern "/widgets",
          .defaultOptions
            (rPost.get_http_methods_with_handlers "/widgets"))] ∧
    (∀ m : Method, m ∈ HTTP_METHODS →
      m ∉ rPost.get_http_methods_with_handlers "/widgets" ++
        [Method.OPTIONS] →
      m ≠ .HEAD →
      entriesFor (processPath rPost "/widgets") m =
        entriesFor rPost m ++
          [(parsePattern "/widgets",
            .methodNotAllowed
              (rPost.get_http_methods_with_handlers "/widgets" ++
                [Method.OPTIONS]))]) ∧
    (∀ m : Method,
      m ∈ rPost.get_http_methods_with_handlers "/widgets" ++
        [Method.OPTIONS] ↔
        (m ∈ rPost.get_http_methods_with_handlers "/widgets" ∨
          m = .OPTIONS)) :=
  allow_sets_agree_except_options.1 rPost "/widgets" (by decide)

/-- C6 as stated fails on the code: with GET registered at `/:x/b` and POST
at `/a/:y`, routing `/a/b` under GET returns the caller handler before the
finalize pass but the synthetic 405 registered at the more specific pattern
`/a/:y` afterwards. -/
theorem finalize_shadows_user_handler_counterexample :
    rShadow.route "/a/b" .GET = ⟨.user 1, [("x", "a")]⟩ ∧
    rShadowF.route "/a/b" .GET =
      ⟨.methodNotAllowed [.POST, .OPTIONS], [("y", "b")]⟩ ∧
    (rShadowF.route "/a/b" .GET).endpoint ≠
      (rShadow.route "/a/b" .GET).endpoint := by
  decide

/-- C6 amended: the finalize pass never removes or replaces a matcher entry
— every matcher's entry list is only extended, every appended entry is
synthetic, and a step appends at a method only when that method's probe of
the path had failed; a synthetic entry may however shadow a
caller-registered handler on concrete paths that the synthetic entry's
pattern matches more specifically. -/
theorem finalize_is_append_only :
    (∀ (r : Router) (p : String) (m : Method),
      ∃ t, entriesFor (processPath r p) m = entriesFor r m ++ t ∧
        (∀ e ∈ t, ∀ id : Nat, e.2 ≠ DynEndpoint.user id) ∧
        (t ≠ [] → probe r p m = none)) ∧
    (∀ (r : Router) (m : Method),
      ∃ t, entriesFor r.add_default_handlers m = entriesFor r m ++ t ∧
        ∀ e ∈ t, ∀ id : Nat, e.2 ≠ DynEndpoint.user id) :=
  ⟨entriesFor_processPath_extend,
    fun r m => entriesFor_foldl_processPath_extend r.paths r m⟩

/-- Witness for the amended C6 at the shadowing example's step. -/
theorem finalize_is_append_only_witness :
    ∃ t, entriesFor (processPath rShadow "/a/:y") .GET =
      entriesFor rShadow .GET ++ t ∧
      (∀ e ∈ t, ∀ id : Nat, e.2 ≠ DynEndpoint.user id) ∧
      (t ≠ [] → probe rShadow "/a/:y" .GET = none) :=
  finalize_is_append_only.1 rShadow "/a/:y" .GET

/-- C7: matching follows the specificity precedence — a successful
`recognize` returns a registered matching pattern that no other matching
registered pattern strictly beats under the
literal-over-parameter-over-wildcard, first-divergence-decides
lexicographic order — and with `/a/b` and `/a/:x` both registered under
GET, in either registration order, routing `/a/b` returns the `/a/b`
handler. -/
theorem matching_precedence :
    (∀ (entries : MethodRouter) (path : String) (res : MatchRes),
      recognize entries path = some res →
      (res.pat, res.handler) ∈ entries ∧
      matchSegs res.pat (splitPath path) = some res.params ∧
      ∀ e ∈ entries, ∀ ps, matchSegs e.1 (splitPath path) = some ps →
        lexLt (patRank e.1) (patRank res.pat) = false) ∧
    (rAB.route "/a/b" .GET).endpoint = .user 1 ∧
    (rBA.route "/a/b" .GET).endpoint = .user 1 :=
  ⟨recognize_spec, by decide, by decide⟩

/-- Witness for C7 at a concrete matcher. -/
theorem matching_precedence_witness :
    (resEx.pat, resEx.handler) ∈ entriesEx ∧
    matchSegs resEx.pat (splitPath "/a/b") = some resEx.params ∧
    ∀ e ∈ entriesEx, ∀ ps, matchSegs e.1 (splitPath "/a/b") = some ps →
      lexLt (patRank e.1) (patRank resEx.pat) = false :=
  matching_precedence.1 entriesEx "/a/b" resEx (by decide)

end TideRouter
